import Mathlib

/-!
Verification of the Terminal Session Engine of agent-maestro
(`src/maestro-ui/src-tauri/src/pty.rs`, `secure.rs`, `recording.rs`).

Rust strings are modelled as lists of naturals: byte lists where the code
works on `&[u8]`, and Unicode-codepoint lists where the code iterates
`str::chars()`.  Fallible Rust functions returning `Result<T, String>` are
modelled as `Except String T`.
-/

namespace AgentMaestro

/-! ## UTF-8 stream decoding (`decode_utf8_stream`, pty.rs)

`decode_utf8_stream` appends the chunk to the carry buffer and repeatedly
calls `std::str::from_utf8`, pushing the maximal valid prefix, emitting
U+FFFD for each invalid sequence (`error_len = Some n`), and stopping when
the remaining bytes are an incomplete trailing sequence (`error_len = None`).
We model the semantics of `from_utf8` (core's `run_utf8_validation`) by a
first-character classifier `utf8First` and iterate it. -/

/-- Result of validating/decoding the first UTF-8 character of a byte list:
either a decoded codepoint consuming `len` bytes, an incomplete trailing
sequence (Rust `error_len = None`), or an invalid sequence of `len` bytes to
skip (Rust `error_len = Some len`). -/
inductive Utf8First where
  | ok (cp : Nat) (len : Nat)
  | incomplete
  | invalid (len : Nat)
deriving DecidableEq, Repr

/-- Continuation byte test: `0x80..=0xBF`. -/
def isCont (b : Nat) : Bool := 0x80 ≤ b && b ≤ 0xBF

/-- Allowed second byte of a three-byte sequence, per lead byte (core's
`run_utf8_validation` table: E0 → A0..BF, ED → 80..9F, else 80..BF). -/
def cont3first (b b1 : Nat) : Bool :=
  if b = 0xE0 then 0xA0 ≤ b1 && b1 ≤ 0xBF
  else if b = 0xED then 0x80 ≤ b1 && b1 ≤ 0x9F
  else isCont b1

/-- Allowed second byte of a four-byte sequence, per lead byte (F0 → 90..BF,
F4 → 80..8F, else 80..BF). -/
def cont4first (b b1 : Nat) : Bool :=
  if b = 0xF0 then 0x90 ≤ b1 && b1 ≤ 0xBF
  else if b = 0xF4 then 0x80 ≤ b1 && b1 ≤ 0x8F
  else isCont b1

/-- Continuation of a two-byte sequence with lead byte `b`: the rest of the
input after the lead. -/
def utf8TwoByte (b : Nat) : List Nat → Utf8First
  | [] => .incomplete
  | b1 :: _ =>
    if isCont b1 then .ok ((b - 0xC0) * 0x40 + (b1 - 0x80)) 2 else .invalid 1

/-- Third byte of a three-byte sequence, `cp2` the value accumulated from
the first two bytes. -/
def utf8ThreeTail (cp2 : Nat) : List Nat → Utf8First
  | [] => .incomplete
  | b2 :: _ =>
    if isCont b2 then .ok (cp2 * 0x40 + (b2 - 0x80)) 3 else .invalid 2

/-- Continuation of a three-byte sequence with lead byte `b`. -/
def utf8ThreeByte (b : Nat) : List Nat → Utf8First
  | [] => .incomplete
  | b1 :: rest1 =>
    if cont3first b b1 then utf8ThreeTail ((b - 0xE0) * 0x40 + (b1 - 0x80)) rest1
    else .invalid 1

/-- Fourth byte of a four-byte sequence, `cp3` the value accumulated from
the first three bytes. -/
def utf8FourTail2 (cp3 : Nat) : List Nat → Utf8First
  | [] => .incomplete
  | b3 :: _ =>
    if isCont b3 then .ok (cp3 * 0x40 + (b3 - 0x80)) 4 else .invalid 3

/-- Third byte of a four-byte sequence, `cp2` the value accumulated from
the first two bytes. -/
def utf8FourTail1 (cp2 : Nat) : List Nat → Utf8First
  | [] => .incomplete
  | b2 :: rest2 =>
    if isCont b2 then utf8FourTail2 (cp2 * 0x40 + (b2 - 0x80)) rest2
    else .invalid 2

/-- Continuation of a four-byte sequence with lead byte `b`. -/
def utf8FourByte (b : Nat) : List Nat → Utf8First
  | [] => .incomplete
  | b1 :: rest1 =>
    if cont4first b b1 then utf8FourTail1 ((b - 0xF0) * 0x40 + (b1 - 0x80)) rest1
    else .invalid 1

/-- Classify/decode the first UTF-8 character of a byte list, following
core Rust's `run_utf8_validation` (which underlies `std::str::from_utf8`). -/
def utf8First : List Nat → Utf8First
  | [] => .incomplete
  | b :: rest =>
    if b < 0x80 then .ok b 1
    else if b < 0xC2 then .invalid 1
    else if b < 0xE0 then utf8TwoByte b rest
    else if b < 0xF0 then utf8ThreeByte b rest
    else if b < 0xF5 then utf8FourByte b rest
    else .invalid 1

/-- The replacement character U+FFFD pushed by `out.push('�')`. -/
def replacementChar : Nat := 0xFFFD

/-- Fuel-indexed decoding loop of `decode_utf8_stream`: emit decoded
codepoints and replacement characters until the remaining bytes are an
incomplete trailing sequence; return `(output, remaining carry)`. -/
def decodeLoopF : Nat → List Nat → List Nat × List Nat
  | 0, l => ([], l)
  | fuel + 1, l =>
    match utf8First l with
    | .ok cp len =>
      let r := decodeLoopF fuel (l.drop len)
      (cp :: r.1, r.2)
    | .incomplete => ([], l)
    | .invalid len =>
      let r := decodeLoopF fuel (l.drop len)
      (replacementChar :: r.1, r.2)

/-- Decoding loop with enough fuel to process the whole buffer. -/
def decodeLoop (l : List Nat) : List Nat × List Nat := decodeLoopF l.length l

/-- Model of `decode_utf8_stream(carry, chunk)` from pty.rs: returns the
decoded output and the new carry (the source mutates `carry` in place and
returns the output string; an empty chunk returns immediately). -/
def decode_utf8_stream (carry chunk : List Nat) : List Nat × List Nat :=
  if chunk = [] then ([], carry)
  else decodeLoop (carry ++ chunk)

/-- Feed chunks sequentially through `decode_utf8_stream` with a shared
carry buffer, accumulating the outputs. -/
def feedFrom (out carry : List Nat) : List (List Nat) → List Nat × List Nat
  | [] => (out, carry)
  | c :: rest =>
    let r := decode_utf8_stream carry c
    feedFrom (out ++ r.1) r.2 rest

/-- Feed a sequence of chunks through `decode_utf8_stream` with a shared
carry buffer starting empty, concatenating the returned strings. -/
def feedChunks (chunks : List (List Nat)) : List Nat × List Nat :=
  feedFrom [] [] chunks

/-! ### Lemmas about the UTF-8 decoder -/

/-- The `ok`/`invalid` length bound for a classification result. -/
def lenBounded (r : Utf8First) (n : Nat) : Prop :=
  (∀ cp len, r = .ok cp len → 1 ≤ len ∧ len ≤ n) ∧
  (∀ len, r = .invalid len → 1 ≤ len ∧ len ≤ n)

theorem utf8TwoByte_len (b : Nat) (l : List Nat) : lenBounded (utf8TwoByte b l) (l.length + 1) := by
  constructor <;> intro <;> cases l <;> simp [utf8TwoByte] <;> split <;> simp <;> omega

theorem utf8ThreeTail_len (cp2 : Nat) (l : List Nat) :
    lenBounded (utf8ThreeTail cp2 l) (l.length + 2) := by
  constructor <;> intro <;> cases l <;> simp [utf8ThreeTail] <;> split <;> simp <;> omega

theorem utf8ThreeByte_len (b : Nat) (l : List Nat) :
    lenBounded (utf8ThreeByte b l) (l.length + 1) := by
  constructor
  · intro cp len h
    cases l with
    | nil => simp [utf8ThreeByte] at h
    | cons b1 rest1 =>
      simp only [utf8ThreeByte] at h
      split at h
      · have := (utf8ThreeTail_len ((b - 0xE0) * 0x40 + (b1 - 0x80)) rest1).1 cp len h
        simp only [List.length_cons]
        omega
      · exact absurd h (by simp)
  · intro len h
    cases l with
    | nil => simp [utf8ThreeByte] at h
    | cons b1 rest1 =>
      simp only [utf8ThreeByte] at h
      split at h
      · have := (utf8ThreeTail_len ((b - 0xE0) * 0x40 + (b1 - 0x80)) rest1).2 len h
        simp only [List.length_cons]
        omega
      · simp only [Utf8First.invalid.injEq] at h
        simp only [List.length_cons]
        omega

theorem utf8FourTail2_len (cp3 : Nat) (l : List Nat) :
    lenBounded (utf8FourTail2 cp3 l) (l.length + 3) := by
  constructor <;> intro <;> cases l <;> simp [utf8FourTail2] <;> split <;> simp <;> omega

theorem utf8FourTail1_len (cp2 : Nat) (l : List Nat) :
    lenBounded (utf8FourTail1 cp2 l) (l.length + 2) := by
  constructor
  · intro cp len h
    cases l with
    | nil => simp [utf8FourTail1] at h
    | cons b2 rest2 =>
      simp only [utf8FourTail1] at h
      split at h
      · have := (utf8FourTail2_len (cp2 * 0x40 + (b2 - 0x80)) rest2).1 cp len h
        simp only [List.length_cons]
        omega
      · exact absurd h (by simp)
  · intro len h
    cases l with
    | nil => simp [utf8FourTail1] at h
    | cons b2 rest2 =>
      simp only [utf8FourTail1] at h
      split at h
      · have := (utf8FourTail2_len (cp2 * 0x40 + (b2 - 0x80)) rest2).2 len h
        simp only [List.length_cons]
        omega
      · simp only [Utf8First.invalid.injEq] at h
        simp only [List.length_cons]
        omega

theorem utf8FourByte_len (b : Nat) (l : List Nat) :
    lenBounded (utf8FourByte b l) (l.length + 1) := by
  constructor
  · intro cp len h
    cases l with
    | nil => simp [utf8FourByte] at h
    | cons b1 rest1 =>
      simp only [utf8FourByte] at h
      split at h
      · have := (utf8FourTail1_len ((b - 0xF0) * 0x40 + (b1 - 0x80)) rest1).1 cp len h
        simp only [List.length_cons]
        omega
      · exact absurd h (by simp)
  · intro len h
    cases l with
    | nil => simp [utf8FourByte] at h
    | cons b1 rest1 =>
      simp only [utf8FourByte] at h
      split at h
      · have := (utf8FourTail1_len ((b - 0xF0) * 0x40 + (b1 - 0x80)) rest1).2 len h
        simp only [List.length_cons]
        omega
      · simp only [Utf8First.invalid.injEq] at h
        simp only [List.length_cons]
        omega

/-- A successful or invalid classification consumes between 1 byte and the
whole list. -/
theorem utf8First_len (l : List Nat) : lenBounded (utf8First l) l.length := by
  cases l with
  | nil => constructor <;> intro <;> simp [utf8First]
  | cons b rest =>
    simp only [utf8First]
    split_ifs with h1 h2 h3 h4 h5
    · constructor <;> intro <;> simp <;> omega
    · constructor <;> intro <;> simp <;> omega
    · simpa using utf8TwoByte_len b rest
    · simpa using utf8ThreeByte_len b rest
    · simpa using utf8FourByte_len b rest
    · constructor <;> intro <;> simp <;> omega

/-- Stability of a classification result under appending further input. -/
def stableUnder (f : List Nat → Utf8First) (l m : List Nat) : Prop :=
  (∀ cp len, f l = .ok cp len → f (l ++ m) = .ok cp len) ∧
  (∀ len, f l = .invalid len → f (l ++ m) = .invalid len)

theorem utf8TwoByte_append (b : Nat) (l m : List Nat) : stableUnder (utf8TwoByte b) l m := by
  constructor <;> intro <;> cases l <;> simp [utf8TwoByte] <;> split <;> simp_all

theorem utf8ThreeTail_append (cp2 : Nat) (l m : List Nat) :
    stableUnder (utf8ThreeTail cp2) l m := by
  constructor <;> intro <;> cases l <;> simp [utf8ThreeTail] <;> split <;> simp_all

theorem utf8ThreeByte_append (b : Nat) (l m : List Nat) :
    stableUnder (utf8ThreeByte b) l m := by
  constructor
  · intro cp len h
    cases l with
    | nil => simp [utf8ThreeByte] at h
    | cons b1 rest1 =>
      simp only [List.cons_append, utf8ThreeByte] at h ⊢
      split at h
      · rw [if_pos (by assumption)]
        exact (utf8ThreeTail_append _ rest1 m).1 cp len h
      · exact absurd h (by simp)
  · intro len h
    cases l with
    | nil => simp [utf8ThreeByte] at h
    | cons b1 rest1 =>
      simp only [List.cons_append, utf8ThreeByte] at h ⊢
      split at h
      · rw [if_pos (by assumption)]
        exact (utf8ThreeTail_append _ rest1 m).2 len h
      · rw [if_neg (by assumption)]
        exact h

theorem utf8FourTail2_append (cp3 : Nat) (l m : List Nat) :
    stableUnder (utf8FourTail2 cp3) l m := by
  constructor <;> intro <;> cases l <;> simp [utf8FourTail2] <;> split <;> simp_all

theorem utf8FourTail1_append (cp2 : Nat) (l m : List Nat) :
    stableUnder (utf8FourTail1 cp2) l m := by
  constructor
  · intro cp len h
    cases l with
    | nil => simp [utf8FourTail1] at h
    | cons b2 rest2 =>
      simp only [List.cons_append, utf8FourTail1] at h ⊢
      split at h
      · rw [if_pos (by assumption)]
        exact (utf8FourTail2_append _ rest2 m).1 cp len h
      · exact absurd h (by simp)
  · intro len h
    cases l with
    | nil => simp [utf8FourTail1] at h
    | cons b2 rest2 =>
      simp only [List.cons_append, utf8FourTail1] at h ⊢
      split at h
      · rw [if_pos (by assumption)]
        exact (utf8FourTail2_append _ rest2 m).2 len h
      · rw [if_neg (by assumption)]
        exact h

theorem utf8FourByte_append (b : Nat) (l m : List Nat) :
    stableUnder (utf8FourByte b) l m := by
  constructor
  · intro cp len h
    cases l with
    | nil => simp [utf8FourByte] at h
    | cons b1 rest1 =>
      simp only [List.cons_append, utf8FourByte] at h ⊢
      split at h
      · rw [if_pos (by assumption)]
        exact (utf8FourTail1_append _ rest1 m).1 cp len h
      · exact absurd h (by simp)
  · intro len h
    cases l with
    | nil => simp [utf8FourByte] at h
    | cons b1 rest1 =>
      simp only [List.cons_append, utf8FourByte] at h ⊢
      split at h
      · rw [if_pos (by assumption)]
        exact (utf8FourTail1_append _ rest1 m).2 len h
      · rw [if_neg (by assumption)]
        exact h

/-- The classification of a complete (ok or invalid) first character is
stable under appending further bytes. -/
theorem utf8First_append (l m : List Nat) : stableUnder utf8First l m := by
  constructor
  · intro cp len h
    cases l with
    | nil => simp [utf8First] at h
    | cons b rest =>
      simp only [utf8First] at h
      simp only [List.cons_append, utf8First]
      split_ifs at h ⊢
      all_goals
        first
          | exact h
          | exact (utf8TwoByte_append b rest m).1 cp len h
          | exact (utf8ThreeByte_append b rest m).1 cp len h
          | exact (utf8FourByte_append b rest m).1 cp len h
  · intro len h
    cases l with
    | nil => simp [utf8First] at h
    | cons b rest =>
      simp only [utf8First] at h
      simp only [List.cons_append, utf8First]
      split_ifs at h ⊢
      all_goals
        first
          | exact h
          | exact (utf8TwoByte_append b rest m).2 len h
          | exact (utf8ThreeByte_append b rest m).2 len h
          | exact (utf8FourByte_append b rest m).2 len h

theorem decodeLoopF_nil (f : Nat) : decodeLoopF f [] = ([], []) := by
  cases f <;> simp [decodeLoopF, utf8First]

/-- Any fuel at least the length of the buffer gives the same result. -/
theorem decodeLoopF_congr :
    ∀ f₁ f₂ l, l.length ≤ f₁ → l.length ≤ f₂ → decodeLoopF f₁ l = decodeLoopF f₂ l := by
  intro f₁
  induction f₁ with
  | zero =>
    intro f₂ l h1 _
    have : l = [] := by cases l <;> simp_all
    subst this
    rw [decodeLoopF_nil, decodeLoopF_nil]
  | succ f ih =>
    intro f₂ l h1 h2
    cases l with
    | nil => rw [decodeLoopF_nil, decodeLoopF_nil]
    | cons b rest =>
      cases f₂ with
      | zero => simp at h2
      | succ f₂ =>
        simp only [decodeLoopF]
        cases hu : utf8First (b :: rest) with
        | ok cp len =>
          have hl := (utf8First_len (b :: rest)).1 cp len hu
          have hd : ((b :: rest).drop len).length ≤ f := by
            simp only [List.length_drop]
            simp at h1 ⊢
            omega
          have hd2 : ((b :: rest).drop len).length ≤ f₂ := by
            simp only [List.length_drop]
            simp at h2 ⊢
            omega
          simp [ih f₂ _ hd hd2]
        | incomplete => simp
        | invalid len =>
          have hl := (utf8First_len (b :: rest)).2 len hu
          have hd : ((b :: rest).drop len).length ≤ f := by
            simp only [List.length_drop]
            simp at h1 ⊢
            omega
          have hd2 : ((b :: rest).drop len).length ≤ f₂ := by
            simp only [List.length_drop]
            simp at h2 ⊢
            omega
          simp [ih f₂ _ hd hd2]

/-- One-step unfolding of `decodeLoop`. -/
theorem decodeLoop_eq (l : List Nat) :
    decodeLoop l =
      match utf8First l with
      | .ok cp len =>
        (cp :: (decodeLoop (l.drop len)).1, (decodeLoop (l.drop len)).2)
      | .incomplete => ([], l)
      | .invalid len =>
        (replacementChar :: (decodeLoop (l.drop len)).1, (decodeLoop (l.drop len)).2) := by
  cases l with
  | nil => simp [decodeLoop, decodeLoopF_nil, utf8First]
  | cons b rest =>
    show decodeLoopF (rest.length + 1) (b :: rest) = _
    simp only [decodeLoopF]
    cases hu : utf8First (b :: rest) with
    | ok cp len =>
      have hl := (utf8First_len (b :: rest)).1 cp len hu
      have : decodeLoopF rest.length ((b :: rest).drop len) = decodeLoop ((b :: rest).drop len) := by
        apply decodeLoopF_congr
        · simp only [List.length_drop]
          simp at hl ⊢
          omega
        · exact le_refl _
      simp [this]
    | incomplete => simp
    | invalid len =>
      have hl := (utf8First_len (b :: rest)).2 len hu
      have : decodeLoopF rest.length ((b :: rest).drop len) = decodeLoop ((b :: rest).drop len) := by
        apply decodeLoopF_congr
        · simp only [List.length_drop]
          simp at hl ⊢
          omega
        · exact le_refl _
      simp [this]

theorem decodeLoop_carry_aux :
    ∀ n l, l.length ≤ n → utf8First (decodeLoop l).2 = .incomplete := by
  intro n
  induction n with
  | zero =>
    intro l h
    have : l = [] := by cases l <;> simp_all
    subst this
    simp [decodeLoop, decodeLoopF_nil, utf8First]
  | succ n ih =>
    intro l h
    rw [decodeLoop_eq]
    cases hu : utf8First l with
    | ok cp len =>
      have hl := (utf8First_len l).1 cp len hu
      exact ih _ (by simp only [List.length_drop]; omega)
    | incomplete => simpa using hu
    | invalid len =>
      have hl := (utf8First_len l).2 len hu
      exact ih _ (by simp only [List.length_drop]; omega)

/-- The carry left by the decoding loop is always a genuinely incomplete
trailing sequence (or empty, which classifies as incomplete as well). -/
theorem decodeLoop_carry (l : List Nat) : utf8First (decodeLoop l).2 = .incomplete :=
  decodeLoop_carry_aux l.length l (le_refl _)

theorem decodeLoop_of_incomplete {l : List Nat} (h : utf8First l = .incomplete) :
    decodeLoop l = ([], l) := by
  rw [decodeLoop_eq, h]

theorem decodeLoop_append_aux :
    ∀ n (a b : List Nat), a.length ≤ n →
      decodeLoop (a ++ b) =
        ((decodeLoop a).1 ++ (decodeLoop ((decodeLoop a).2 ++ b)).1,
         (decodeLoop ((decodeLoop a).2 ++ b)).2) := by
  intro n
  induction n with
  | zero =>
    intro a b h
    have : a = [] := by cases a <;> simp_all
    subst this
    simp [decodeLoop_of_incomplete (show utf8First [] = .incomplete from rfl)]
  | succ n ih =>
    intro a b h
    rw [decodeLoop_eq a]
    cases hu : utf8First a with
    | ok cp len =>
      have hl := (utf8First_len a).1 cp len hu
      rw [decodeLoop_eq (a ++ b), (utf8First_append a b).1 cp len hu]
      have hdrop : (a ++ b).drop len = a.drop len ++ b :=
        List.drop_append_of_le_length hl.2
      have := ih (a.drop len) b (by simp only [List.length_drop]; omega)
      simp [hdrop, this]
    | incomplete =>
      simp
    | invalid len =>
      have hl := (utf8First_len a).2 len hu
      rw [decodeLoop_eq (a ++ b), (utf8First_append a b).2 len hu]
      have hdrop : (a ++ b).drop len = a.drop len ++ b :=
        List.drop_append_of_le_length hl.2
      have := ih (a.drop len) b (by simp only [List.length_drop]; omega)
      simp [hdrop, this]

/-- Streaming composition: decoding `a ++ b` in one go is decoding `a`,
then decoding its leftover carry joined with `b`. -/
theorem decodeLoop_append (a b : List Nat) :
    decodeLoop (a ++ b) =
      ((decodeLoop a).1 ++ (decodeLoop ((decodeLoop a).2 ++ b)).1,
       (decodeLoop ((decodeLoop a).2 ++ b)).2) :=
  decodeLoop_append_aux a.length a b (le_refl _)

/-- Generalized chunk-feeding lemma: starting from any incomplete carry and
accumulated output, feeding the chunks equals one-shot decoding of the
carry joined with all remaining bytes. -/
theorem feedFrom_eq (chunks : List (List Nat)) :
    ∀ out carry, utf8First carry = .incomplete →
      feedFrom out carry chunks =
        (out ++ (decodeLoop (carry ++ chunks.flatten)).1,
         (decodeLoop (carry ++ chunks.flatten)).2) := by
  induction chunks with
  | nil =>
    intro out carry h
    simp [feedFrom, decodeLoop_of_incomplete h]
  | cons c rest ih =>
    intro out carry h
    by_cases hc : c = []
    · subst hc
      simp only [feedFrom, decode_utf8_stream, if_pos rfl, List.flatten_cons,
        List.nil_append]
      simpa using ih out carry h
    · simp only [feedFrom, decode_utf8_stream, if_neg hc, List.flatten_cons]
      have hcar := decodeLoop_carry (carry ++ c)
      rw [ih (out ++ (decodeLoop (carry ++ c)).1) ((decodeLoop (carry ++ c)).2) hcar]
      rw [← List.append_assoc carry c rest.flatten]
      rw [decodeLoop_append (carry ++ c) rest.flatten]
      simp

/-- C1: For every byte stream split into arbitrarily small chunks and fed
sequentially through `decode_utf8_stream` with a shared carry buffer, the
concatenated output and the final carry equal those of decoding the same
bytes as one single chunk (invalid sequences replaced by U+FFFD identically,
any genuinely incomplete trailing sequence left in the carry in both runs). -/
theorem decode_utf8_stream_chunk_invariant (chunks : List (List Nat)) :
    feedChunks chunks = decode_utf8_stream [] chunks.flatten := by
  unfold feedChunks
  rw [feedFrom_eq chunks [] [] rfl]
  by_cases h : chunks.flatten = []
  · rw [h]
    simp [decode_utf8_stream, decodeLoop, decodeLoopF_nil]
  · simp only [decode_utf8_stream, if_neg h, List.nil_append, Prod.mk.eta]

/-! ## UTF-8 validity (`String::from_utf8`)

`String::from_utf8` succeeds exactly when validation decodes the whole byte
list without error; we reuse `utf8First`. -/

/-- Fuel-indexed UTF-8 validity check. -/
def utf8IsValidF : Nat → List Nat → Bool
  | 0, l => l.isEmpty
  | fuel + 1, l =>
    match l with
    | [] => true
    | _ =>
      match utf8First l with
      | .ok _ len => utf8IsValidF fuel (l.drop len)
      | _ => false

/-- Whether a byte list is valid UTF-8 (the success condition of Rust's
`String::from_utf8` / `std::str::from_utf8`). -/
def utf8IsValid (l : List Nat) : Bool := utf8IsValidF l.length l

/-! ## Secure Key Manager (`secure.rs`)

Byte-list model of `encrypt_string_with_key` / `decrypt_string_with_key`.
The ChaCha20-Poly1305 AEAD primitive is an external crate
(`chacha20poly1305`); it is modelled as an explicit function parameter
`aeadE`/`aeadD : key → nonce → aad → payload → Except String bytes`, and the
random nonce generated by `OsRng` inside `encrypt_string_with_key` is passed
in as an argument. -/

/-- ASCII bytes of a string literal (all uses are pure-ASCII constants). -/
def strBytes (s : String) : List Nat := s.data.map Char.toNat

/-- The ciphertext marker `enc:v1:` (constant `ENC_PREFIX` in secure.rs). -/
def encHeader : List Nat := strBytes "enc:v1:"

/-- Constant `NONCE_LEN` in secure.rs. -/
def NONCE_LEN : Nat := 12

/-- Constant `KEY_LEN` in secure.rs. -/
def KEY_LEN : Nat := 32

/-- The two usage contexts (`SecretContext` in secure.rs). -/
inductive SecretContext where
  | state
  | recording
deriving DecidableEq, Repr

/-- Associated-data string per context (`SecretContext::aad`). -/
def SecretContext.aad : SecretContext → List Nat
  | .state => strBytes "agents-ui/state/v1"
  | .recording => strBytes "agents-ui/recording/v1"

/-- Base64 symbol for a 6-bit value (the `STANDARD` alphabet). -/
def b64Char (n : Nat) : Nat :=
  if n < 26 then 65 + n
  else if n < 52 then 97 + (n - 26)
  else if n < 62 then 48 + (n - 52)
  else if n = 62 then 43
  else 47

/-- Inverse of the base64 alphabet; `none` for bytes outside it. -/
def b64Inv (c : Nat) : Option Nat :=
  if 65 ≤ c ∧ c ≤ 90 then some (c - 65)
  else if 97 ≤ c ∧ c ≤ 122 then some (c - 97 + 26)
  else if 48 ≤ c ∧ c ≤ 57 then some (c - 48 + 52)
  else if c = 43 then some 62
  else if c = 47 then some 63
  else none

/-- Standard base64 encoding with padding (the crate's `STANDARD` engine). -/
def base64Encode : List Nat → List Nat
  | b0 :: b1 :: b2 :: rest =>
    b64Char (b0 / 4) :: b64Char (b0 % 4 * 16 + b1 / 16) ::
      b64Char (b1 % 16 * 4 + b2 / 64) :: b64Char (b2 % 64) :: base64Encode rest
  | [b0, b1] =>
    [b64Char (b0 / 4), b64Char (b0 % 4 * 16 + b1 / 16), b64Char (b1 % 16 * 4), 61]
  | [b0] => [b64Char (b0 / 4), b64Char (b0 % 4 * 16), 61, 61]
  | [] => []

/-- Standard base64 decoding with canonical padding (the crate's `STANDARD`
engine: strict alphabet, required terminal padding, zero trailing bits). -/
def base64Decode : List Nat → Option (List Nat)
  | [] => some []
  | c0 :: c1 :: c2 :: c3 :: rest =>
    match b64Inv c0, b64Inv c1 with
    | some v0, some v1 =>
      if c2 = 61 then
        if c3 = 61 ∧ rest = [] then
          if v1 % 16 = 0 then some [v0 * 4 + v1 / 16] else none
        else none
      else
        match b64Inv c2 with
        | some v2 =>
          if c3 = 61 then
            if rest = [] then
              if v2 % 4 = 0 then some [v0 * 4 + v1 / 16, v1 % 16 * 16 + v2 / 4]
              else none
            else none
          else
            match b64Inv c3, base64Decode rest with
            | some v3, some tail =>
              some ((v0 * 4 + v1 / 16) :: (v1 % 16 * 16 + v2 / 4) ::
                (v2 % 4 * 64 + v3) :: tail)
            | _, _ => none
        | none => none
    | _, _ => none
  | _ => none

/-- Whitespace per Rust `char::is_whitespace` (the Unicode `White_Space`
property), used by `str::trim_start`. -/
def isRustWhitespace (cp : Nat) : Bool :=
  cp = 0x09 || cp = 0x0A || cp = 0x0B || cp = 0x0C || cp = 0x0D || cp = 0x20 ||
  cp = 0x85 || cp = 0xA0 || cp = 0x1680 || (0x2000 ≤ cp && cp ≤ 0x200A) ||
  cp = 0x2028 || cp = 0x2029 || cp = 0x202F || cp = 0x205F || cp = 0x3000

/-- Fuel-indexed byte-level model of `str::trim_start`: drop leading
whitespace characters (decoding them with `utf8First`; on a Rust `String`
the bytes are always valid UTF-8). -/
def trimStartF : Nat → List Nat → List Nat
  | 0, l => l
  | fuel + 1, l =>
    match utf8First l with
    | .ok cp len => if isRustWhitespace cp then trimStartF fuel (l.drop len) else l
    | _ => l

/-- Model of `value.trim_start()` on the byte level. -/
def trimStartBytes (l : List Nat) : List Nat := trimStartF l.length l

/-- Model of `is_encrypted_value` (secure.rs): trimmed value starts with the
`enc:v1:` marker. -/
def is_encrypted_value (v : List Nat) : Bool :=
  encHeader.isPrefixOf (trimStartBytes v)

/-- Model of `is_probably_encrypted_value` (secure.rs): marker present and
the base64 payload decodes to at least nonce (12) + Poly1305 tag (16) bytes. -/
def is_probably_encrypted_value (v : List Nat) : Bool :=
  is_encrypted_value v &&
    match base64Decode ((trimStartBytes v).drop encHeader.length) with
    | some decoded => decide (NONCE_LEN + 16 ≤ decoded.length)
    | none => false

/-- Model of `encrypt_string_with_key` (secure.rs).  `aeadE` is the external
AEAD encryption `cipher.encrypt`, `nonce` the random nonce filled from
`OsRng`, `plaintext` the UTF-8 bytes of the plaintext string. -/
def encrypt_string_with_key
    (aeadE : List Nat → List Nat → List Nat → List Nat → Except String (List Nat))
    (nonce : List Nat) (key : List Nat) (context : SecretContext)
    (plaintext : List Nat) : Except String (List Nat) :=
  match aeadE key nonce context.aad plaintext with
  | .error e => .error ("encrypt failed: " ++ e)
  | .ok ciphertext => .ok (encHeader ++ base64Encode (nonce ++ ciphertext))

/-- Model of `decrypt_string_with_key` (secure.rs).  `aeadD` is the external
AEAD decryption `cipher.decrypt`; the final `String::from_utf8` is the
`utf8IsValid` check on the plaintext bytes. -/
def decrypt_string_with_key
    (aeadD : List Nat → List Nat → List Nat → List Nat → Except String (List Nat))
    (key : List Nat) (context : SecretContext) (value : List Nat) :
    Except String (List Nat) :=
  let trimmed := trimStartBytes value
  if encHeader.isPrefixOf trimmed then
    let encoded := trimmed.drop encHeader.length
    match base64Decode encoded with
    | none => .ok value
    | some decoded =>
      if decoded.length < NONCE_LEN then .ok value
      else
        let nonce_bytes := decoded.take NONCE_LEN
        let ciphertext := decoded.drop NONCE_LEN
        match aeadD key nonce_bytes context.aad ciphertext with
        | .error e => .error ("decrypt failed: " ++ e)
        | .ok plaintext =>
          if utf8IsValid plaintext then .ok plaintext
          else .error "decrypt failed (utf8)"
  else .ok value

/-! ### Lemmas about base64 and the ciphertext wrapper -/

theorem b64Inv_b64Char : ∀ n, n < 64 → b64Inv (b64Char n) = some n := by decide

theorem b64Char_ne_61 : ∀ n, n < 64 → b64Char n ≠ 61 := by decide

theorem base64_roundtrip_aux :
    ∀ n (l : List Nat), l.length ≤ n → (∀ b ∈ l, b < 256) →
      base64Decode (base64Encode l) = some l := by
  intro n
  induction n with
  | zero =>
    intro l h _
    have : l = [] := by cases l <;> simp_all
    subst this
    simp [base64Encode, base64Decode]
  | succ n ih =>
    intro l hlen hb
    match l with
    | [] => simp [base64Encode, base64Decode]
    | [b0] =>
      have h0 : b0 < 256 := hb b0 (by simp)
      have e0 : b0 / 4 < 64 := by omega
      have e1 : b0 % 4 * 16 < 64 := by omega
      simp only [base64Encode, base64Decode]
      rw [b64Inv_b64Char _ e0, b64Inv_b64Char _ e1]
      simp only [if_pos rfl, and_self, if_true]
      rw [if_pos (show b0 % 4 * 16 % 16 = 0 by omega)]
      congr 1
      simp only [List.cons.injEq, and_true]
      omega
    | [b0, b1] =>
      have h0 : b0 < 256 := hb b0 (by simp)
      have h1 : b1 < 256 := hb b1 (by simp)
      have e0 : b0 / 4 < 64 := by omega
      have e1 : b0 % 4 * 16 + b1 / 16 < 64 := by omega
      have e2 : b1 % 16 * 4 < 64 := by omega
      simp only [base64Encode, base64Decode]
      rw [b64Inv_b64Char _ e0, b64Inv_b64Char _ e1]
      simp only
      rw [if_neg (b64Char_ne_61 _ e2), b64Inv_b64Char _ e2]
      simp only [if_true]
      rw [if_pos (show b1 % 16 * 4 % 4 = 0 by omega)]
      congr 1
      simp only [List.cons.injEq, and_true]
      constructor <;> omega
    | b0 :: b1 :: b2 :: rest =>
      have h0 : b0 < 256 := hb b0 (by simp)
      have h1 : b1 < 256 := hb b1 (by simp)
      have h2 : b2 < 256 := hb b2 (by simp)
      have e0 : b0 / 4 < 64 := by omega
      have e1 : b0 % 4 * 16 + b1 / 16 < 64 := by omega
      have e2 : b1 % 16 * 4 + b2 / 64 < 64 := by omega
      have e3 : b2 % 64 < 64 := by omega
      have hrest : base64Decode (base64Encode rest) = some rest := by
        apply ih rest
        · simp only [List.length_cons] at hlen
          omega
        · intro b hbmem
          exact hb b (by simp [hbmem])
      simp only [base64Encode, base64Decode]
      rw [b64Inv_b64Char _ e0, b64Inv_b64Char _ e1]
      simp only
      rw [if_neg (b64Char_ne_61 _ e2), b64Inv_b64Char _ e2]
      simp only
      rw [if_neg (b64Char_ne_61 _ e3), b64Inv_b64Char _ e3]
      rw [hrest]
      simp only [Option.some.injEq, List.cons.injEq]
      refine ⟨by omega, by omega, by omega, trivial⟩

/-- Base64 round trip: decoding the encoding of any byte list recovers it. -/
theorem base64_roundtrip (l : List Nat) (h : ∀ b ∈ l, b < 256) :
    base64Decode (base64Encode l) = some l :=
  base64_roundtrip_aux l.length l (le_refl _) h

theorem encHeader_eq : encHeader = [101, 110, 99, 58, 118, 49, 58] := by decide

/-- Trimming leaves a string starting with a non-whitespace ASCII byte
untouched. -/
theorem trimStartBytes_cons_of_not_ws {b : Nat} (l : List Nat) (h1 : b < 0x80)
    (h2 : isRustWhitespace b = false) : trimStartBytes (b :: l) = b :: l := by
  show trimStartF (l.length + 1) (b :: l) = b :: l
  simp [trimStartF, utf8First, if_pos h1, h2]

/-- Trimming leaves a value that starts with the `enc:v1:` marker untouched. -/
theorem trimStartBytes_encHeader (rest : List Nat) :
    trimStartBytes (encHeader ++ rest) = encHeader ++ rest := by
  rw [encHeader_eq]
  exact trimStartBytes_cons_of_not_ws _ (by norm_num) (by decide)

/-- Flip one bit (`2 ^ bit`) of the byte at index `i`. -/
def flipBitAt : List Nat → Nat → Nat → List Nat
  | [], _, _ => []
  | b :: rest, 0, bit => (b ^^^ 2 ^ bit) :: rest
  | b :: rest, i + 1, bit => b :: flipBitAt rest i bit

theorem flipBitAt_length (l : List Nat) (i bit : Nat) :
    (flipBitAt l i bit).length = l.length := by
  induction l generalizing i with
  | nil => rfl
  | cons b rest ih =>
    cases i with
    | zero => simp [flipBitAt]
    | succ j => simp [flipBitAt, ih]

theorem flipBitAt_lt (l : List Nat) (i bit : Nat) (hb : ∀ b ∈ l, b < 256)
    (hbit : bit < 8) : ∀ b ∈ flipBitAt l i bit, b < 256 := by
  induction l generalizing i with
  | nil => simp [flipBitAt]
  | cons b rest ih =>
    cases i with
    | zero =>
      intro x hx
      simp only [flipBitAt, List.mem_cons] at hx
      rcases hx with rfl | hx
      · have h1 : b < 2 ^ 8 := hb b (by simp)
        have h2 : 2 ^ bit < 2 ^ 8 := Nat.pow_lt_pow_right (by norm_num) hbit
        exact Nat.xor_lt_two_pow h1 h2
      · exact hb x (by simp [hx])
    | succ j =>
      intro x hx
      simp only [flipBitAt, List.mem_cons] at hx
      rcases hx with rfl | hx
      · exact hb x (by simp)
      · exact ih j (fun y hy => hb y (by simp [hy])) x hx

/-- Shared unwrapping fact: decrypting `enc:v1:` + base64 of a well-formed
blob reaches the AEAD with the blob split at the 12-byte nonce boundary, and
propagates its verdict. -/
theorem decrypt_unwrap
    (aeadD : List Nat → List Nat → List Nat → List Nat → Except String (List Nat))
    (key : List Nat) (ctx : SecretContext) (blob : List Nat)
    (hb : ∀ b ∈ blob, b < 256) (hlen : NONCE_LEN ≤ blob.length) :
    decrypt_string_with_key aeadD key ctx (encHeader ++ base64Encode blob) =
      match aeadD key (blob.take NONCE_LEN) ctx.aad (blob.drop NONCE_LEN) with
      | .error e => .error ("decrypt failed: " ++ e)
      | .ok plaintext =>
        if utf8IsValid plaintext then .ok plaintext
        else .error "decrypt failed (utf8)" := by
  have h1 : encHeader.isPrefixOf (encHeader ++ base64Encode blob) = true := by
    simp [List.isPrefixOf_iff_prefix]
  have h2 : ¬ blob.length < NONCE_LEN := by omega
  simp only [decrypt_string_with_key, trimStartBytes_encHeader, h1, if_true,
    List.drop_left, base64_roundtrip blob hb, h2, if_false]

/-- C2: For every key, usage context and message, decrypting the encryption
of `m` (same context, the AEAD round-tripping on the produced ciphertext)
returns `Ok m`; decrypting the same value with the other context, or with
any bit of the decoded nonce-plus-ciphertext blob flipped, propagates the
AEAD authentication failure as an error.  The ChaCha20-Poly1305 primitive is
an external crate, modelled by the parameters `aeadE`/`aeadD` and the
hypotheses stating its round-trip and authentication behaviour at the
relevant inputs. -/
theorem encrypt_decrypt_roundtrip_auth
    (aeadE aeadD : List Nat → List Nat → List Nat → List Nat → Except String (List Nat))
    (key nonce m ct : List Nat) (ctx : SecretContext)
    (hkey : key.length = KEY_LEN)
    (hnlen : nonce.length = NONCE_LEN)
    (hn : ∀ b ∈ nonce, b < 256)
    (hE : aeadE key nonce ctx.aad m = .ok ct)
    (hct : ∀ b ∈ ct, b < 256)
    (hD : aeadD key nonce ctx.aad ct = .ok m)
    (hm : utf8IsValid m = true) :
    (∀ v, encrypt_string_with_key aeadE nonce key ctx m = .ok v →
        decrypt_string_with_key aeadD key ctx v = .ok m) ∧
    (∀ ctx2 e, aeadD key nonce ctx2.aad ct = .error e →
        decrypt_string_with_key aeadD key ctx2
            (encHeader ++ base64Encode (nonce ++ ct)) =
          .error ("decrypt failed: " ++ e)) ∧
    (∀ i bit e, bit < 8 →
        aeadD key ((flipBitAt (nonce ++ ct) i bit).take NONCE_LEN) ctx.aad
            ((flipBitAt (nonce ++ ct) i bit).drop NONCE_LEN) = .error e →
        decrypt_string_with_key aeadD key ctx
            (encHeader ++ base64Encode (flipBitAt (nonce ++ ct) i bit)) =
          .error ("decrypt failed: " ++ e)) := by
  have hblob : ∀ b ∈ nonce ++ ct, b < 256 := by
    intro b hbmem
    rcases List.mem_append.mp hbmem with hmem | hmem
    · exact hn b hmem
    · exact hct b hmem
  have hbloblen : NONCE_LEN ≤ (nonce ++ ct).length := by
    simp [List.length_append, hnlen]
  have htake : (nonce ++ ct).take NONCE_LEN = nonce := by
    rw [← hnlen]
    simp
  have hdrop : (nonce ++ ct).drop NONCE_LEN = ct := by
    rw [← hnlen]
    simp
  refine ⟨?_, ?_, ?_⟩
  · intro v hv
    simp only [encrypt_string_with_key, hE] at hv
    have hv2 : v = encHeader ++ base64Encode (nonce ++ ct) := by
      cases hv
      rfl
    subst hv2
    rw [decrypt_unwrap aeadD key ctx (nonce ++ ct) hblob hbloblen, htake, hdrop, hD]
    simp [hm]
  · intro ctx2 e he
    rw [decrypt_unwrap aeadD key ctx2 (nonce ++ ct) hblob hbloblen, htake, hdrop, he]
  · intro i bit e hbit he
    rw [decrypt_unwrap aeadD key ctx (flipBitAt (nonce ++ ct) i bit)
      (flipBitAt_lt _ i bit hblob hbit)
      (by rw [flipBitAt_length]; exact hbloblen), he]

/-- Toy AEAD instantiating the abstract cipher parameter in witnesses: the
ciphertext is the message plus a checksum over key, nonce, associated data
and message, so any change to one of them is detected. -/
def toyAeadE (key nonce aadv msg : List Nat) : Except String (List Nat) :=
  .ok (msg ++ [(msg.sum + key.sum + 2 * nonce.sum + 3 * aadv.sum) % 256])

/-- Toy AEAD decryption matching `toyAeadE`. -/
def toyAeadD (key nonce aadv c : List Nat) : Except String (List Nat) :=
  if c ≠ [] ∧
      c.getLastD 0 = (c.dropLast.sum + key.sum + 2 * nonce.sum + 3 * aadv.sum) % 256
  then .ok c.dropLast
  else .error "aead::Error"

def w2key : List Nat := List.replicate KEY_LEN 7

def w2nonce : List Nat := List.replicate NONCE_LEN 1

def w2msg : List Nat := [104, 105]

def w2ct : List Nat :=
  w2msg ++ [(w2msg.sum + w2key.sum + 2 * w2nonce.sum + 3 * SecretContext.state.aad.sum) % 256]

theorem encrypt_decrypt_roundtrip_auth_witness :
    decrypt_string_with_key toyAeadD w2key .state
        (encHeader ++ base64Encode (w2nonce ++ w2ct)) = .ok w2msg ∧
    decrypt_string_with_key toyAeadD w2key .recording
        (encHeader ++ base64Encode (w2nonce ++ w2ct)) =
      .error ("decrypt failed: " ++ "aead::Error") ∧
    decrypt_string_with_key toyAeadD w2key .state
        (encHeader ++ base64Encode (flipBitAt (w2nonce ++ w2ct) 0 0)) =
      .error ("decrypt failed: " ++ "aead::Error") := by
  have h := encrypt_decrypt_roundtrip_auth toyAeadE toyAeadD w2key w2nonce w2msg w2ct
    SecretContext.state (by decide) (by decide) (by decide) (by rfl) (by decide)
    (by rfl) (by decide)
  exact ⟨h.1 _ (by rfl),
    h.2.1 SecretContext.recording "aead::Error" (by rfl),
    h.2.2 0 0 "aead::Error" (by decide) (by rfl)⟩

/-- C10: For every key and context, `decrypt_string_with_key` returns the
input unchanged as a success whenever the trimmed input does not start with
`enc:v1:`, or the part after the marker is not valid base64, or the decoded
blob is shorter than 12 bytes — malformed ciphertext is passed through
verbatim rather than rejected. -/
theorem decrypt_passthrough
    (aeadD : List Nat → List Nat → List Nat → List Nat → Except String (List Nat))
    (key : List Nat) (ctx : SecretContext) (value : List Nat)
    (h : ¬ (encHeader.isPrefixOf (trimStartBytes value) = true) ∨
         base64Decode ((trimStartBytes value).drop encHeader.length) = none ∨
         (∃ d, base64Decode ((trimStartBytes value).drop encHeader.length) = some d ∧
            d.length < NONCE_LEN)) :
    decrypt_string_with_key aeadD key ctx value = .ok value := by
  rcases h with h | h | ⟨d, hd, hlen⟩
  · simp only [decrypt_string_with_key]
    rw [if_neg h]
  · simp only [decrypt_string_with_key]
    by_cases hp : encHeader.isPrefixOf (trimStartBytes value) = true
    · rw [if_pos hp, h]
    · rw [if_neg hp]
  · simp only [decrypt_string_with_key]
    by_cases hp : encHeader.isPrefixOf (trimStartBytes value) = true
    · rw [if_pos hp, hd]
      simp only
      rw [if_pos hlen]
    · rw [if_neg hp]

theorem decrypt_passthrough_witness :
    decrypt_string_with_key toyAeadD (List.replicate KEY_LEN 0) SecretContext.state
        (strBytes "hello") = .ok (strBytes "hello") ∧
    decrypt_string_with_key toyAeadD (List.replicate KEY_LEN 0) SecretContext.state
        (strBytes "enc:v1:!!!") = .ok (strBytes "enc:v1:!!!") ∧
    decrypt_string_with_key toyAeadD (List.replicate KEY_LEN 0) SecretContext.state
        (strBytes "enc:v1:TWFu") = .ok (strBytes "enc:v1:TWFu") :=
  ⟨decrypt_passthrough toyAeadD _ _ _ (Or.inl (by decide)),
   decrypt_passthrough toyAeadD _ _ _ (Or.inr (Or.inl (by decide))),
   decrypt_passthrough toyAeadD _ _ _ (Or.inr (Or.inr ⟨[77, 97, 110], by decide, by decide⟩))⟩

/-! ## Recording Subsystem and Session Registry (`pty.rs`)

User input is modelled as the list of Unicode codepoints the source
iterates with `data.chars()`.  The recording's `BufWriter<File>` is
modelled at the event-line level: `fileLines` are lines flushed to disk,
`pendingLines` sit in the buffer; `unflushed_bytes` counts serialized bytes
exactly as the source does (`json.len() + 1`), using a concrete model of
`serde_json::to_string` for `RecordingLineV1::Input`.  `Instant` values are
milliseconds of a monotone clock passed in as `now`. -/

/-- Control characters per Rust `char::is_control` (Unicode category Cc). -/
def isRustControl (c : Nat) : Bool := c < 0x20 || (0x7F ≤ c && c ≤ 0x9F)

/-- UTF-8 encoding of one codepoint (`str::as_bytes` per char). -/
def utf8EncodeChar (c : Nat) : List Nat :=
  if c < 0x80 then [c]
  else if c < 0x800 then [0xC0 + c / 0x40, 0x80 + c % 0x40]
  else if c < 0x10000 then
    [0xE0 + c / 0x1000, 0x80 + c / 0x40 % 0x40, 0x80 + c % 0x40]
  else
    [0xF0 + c / 0x40000, 0x80 + c / 0x1000 % 0x40, 0x80 + c / 0x40 % 0x40,
     0x80 + c % 0x40]

/-- UTF-8 encoding of a codepoint list (Rust `str::as_bytes`). -/
def utf8EncodeStr (data : List Nat) : List Nat :=
  (data.map utf8EncodeChar).flatten

/-- Fuel-indexed decimal rendering (Rust `Display` for integers). -/
def natReprF : Nat → Nat → List Nat
  | _, 0 => []
  | n, fuel + 1 =>
    if n < 10 then [48 + n] else natReprF (n / 10) fuel ++ [48 + n % 10]

/-- Decimal digits (as ASCII bytes) of `n`, the model of `format!` on a
number. -/
def natRepr (n : Nat) : List Nat := natReprF n (n + 1)

/-- Lowercase hex digit used by `serde_json` control-character escapes. -/
def hexDigit (n : Nat) : Nat := if n < 10 then 48 + n else 87 + n

/-- JSON string escaping of one character, per `serde_json`. -/
def jsonEscapeChar (c : Nat) : List Nat :=
  if c = 34 then [92, 34]
  else if c = 92 then [92, 92]
  else if c = 8 then [92, 98]
  else if c = 9 then [92, 116]
  else if c = 10 then [92, 110]
  else if c = 12 then [92, 102]
  else if c = 13 then [92, 114]
  else if c < 32 then [92, 117, 48, 48, hexDigit (c / 16), hexDigit (c % 16)]
  else utf8EncodeChar c

/-- JSON string escaping, per `serde_json`. -/
def jsonEscape (data : List Nat) : List Nat := (data.map jsonEscapeChar).flatten

/-- Bytes of `serde_json::to_string(&RecordingLineV1::Input(..))`, i.e.
`{"type":"input","t":<t>,"data":"<escaped>"}` (braces and quotes written as
byte values). -/
def jsonInputLine (t : Nat) (data : List Nat) : List Nat :=
  [123, 34, 116, 121, 112, 101, 34, 58, 34, 105, 110, 112, 117, 116, 34, 44,
   34, 116, 34, 58] ++ natRepr t ++
  [44, 34, 100, 97, 116, 97, 34, 58, 34] ++ jsonEscape data ++ [34, 125]

/-- Model of `SessionRecording` (pty.rs).  The `BufWriter<File>` is split
into `fileLines` (on disk) and `pendingLines` (buffered); timestamps are
milliseconds. -/
structure SessionRecording where
  recId : List Nat
  fileLines : List (Nat × List Nat)
  pendingLines : List (Nat × List Nat)
  started_at : Nat
  last_flush : Nat
  unflushed_bytes : Nat
  input_buffer : List Nat
  enc_key : Option (List Nat)
deriving Repr, DecidableEq

/-- Model of `write_recording_event` (pty.rs).  `encFn` models
`crate::secure::encrypt_string_with_key` with context `Recording` (the
random nonce making it non-deterministic); serialization is `jsonInputLine`. -/
def write_recording_event (encFn : List Nat → List Nat → Except String (List Nat))
    (rec : SessionRecording) (t : Nat) (data : List Nat) :
    Except String SessionRecording :=
  let dataE : Except String (List Nat) :=
    match rec.enc_key with
    | some key => encFn key data
    | none => .ok data
  match dataE with
  | .error e => .error e
  | .ok d =>
    .ok { rec with
      pendingLines := rec.pendingLines ++ [(t, d)],
      unflushed_bytes := rec.unflushed_bytes + (jsonInputLine t d).length + 1 }

/-- Model of `skip_csi` (pty.rs): consume until a byte in `@..=~`
(inclusive) is consumed. -/
def skip_csi : List Nat → List Nat
  | [] => []
  | c :: rest => if 0x40 ≤ c ∧ c ≤ 0x7E then rest else skip_csi rest

/-- Model of `skip_until_st` (pty.rs): consume until the two-character
string terminator `ESC \`. -/
def skip_until_st : List Nat → List Nat
  | [] => []
  | c :: rest =>
    if c = 0x1B then
      match rest with
      | 0x5C :: rest2 => rest2
      | _ => skip_until_st rest
    else skip_until_st rest

/-- Model of `skip_osc` (pty.rs): consume until BEL or `ESC \`. -/
def skip_osc : List Nat → List Nat
  | [] => []
  | c :: rest =>
    if c = 0x7 then rest
    else if c = 0x1B then
      match rest with
      | 0x5C :: rest2 => rest2
      | _ => skip_osc rest
    else skip_osc rest

/-- Model of `skip_escape_sequence` (pty.rs): dispatch on the byte after
ESC; unknown single-character escapes consume exactly one character. -/
def skip_escape_sequence : List Nat → List Nat
  | [] => []
  | c :: rest =>
    if c = 91 then skip_csi rest
    else if c = 93 then skip_osc rest
    else if c = 80 ∨ c = 94 ∨ c = 95 then skip_until_st rest
    else rest

/-- Fuel-indexed model of the character-scanning loop of
`record_user_input` (pty.rs); returns the updated recording and the
`wrote_any` flag.  The fuel is at least the input length, and each step
consumes at least the head character. -/
def recordScanF (encFn : List Nat → List Nat → Except String (List Nat)) (t : Nat) :
    Nat → SessionRecording → Bool → List Nat →
    Except String (SessionRecording × Bool)
  | _, rec, wrote, [] => .ok (rec, wrote)
  | 0, rec, wrote, _ :: _ => .ok (rec, wrote)
  | fuel + 1, rec, wrote, c :: rest =>
    if c = 13 then
      let rest2 := if rest.head? = some 10 then rest.tail else rest
      let line := rec.input_buffer ++ [13]
      match write_recording_event encFn { rec with input_buffer := [] } t line with
      | .error e => .error e
      | .ok rec2 => recordScanF encFn t fuel rec2 true rest2
    else if c = 10 then
      let line := rec.input_buffer ++ [10]
      match write_recording_event encFn { rec with input_buffer := [] } t line with
      | .error e => .error e
      | .ok rec2 => recordScanF encFn t fuel rec2 true rest
    else if c = 127 ∨ c = 8 then
      recordScanF encFn t fuel { rec with input_buffer := rec.input_buffer.dropLast }
        wrote rest
    else if c = 21 then
      recordScanF encFn t fuel { rec with input_buffer := [] } wrote rest
    else if c = 9 then
      recordScanF encFn t fuel rec wrote rest
    else if c = 27 then
      recordScanF encFn t fuel rec wrote (skip_escape_sequence rest)
    else if isRustControl c then
      recordScanF encFn t fuel rec wrote rest
    else
      recordScanF encFn t fuel { rec with input_buffer := rec.input_buffer ++ [c] }
        wrote rest

/-- The scanning loop of `record_user_input` with sufficient fuel. -/
def recordScan (encFn : List Nat → List Nat → Except String (List Nat)) (t : Nat)
    (rec : SessionRecording) (wrote : Bool) (data : List Nat) :
    Except String (SessionRecording × Bool) :=
  recordScanF encFn t data.length rec wrote data

/-- Flushing the recording writer: buffered lines reach the file, the
flush clock and byte counter reset (`rec.writer.flush()` plus the two
assignments in `record_user_input`). -/
def flushRecording (rec : SessionRecording) (now : Nat) : SessionRecording :=
  { rec with
    fileLines := rec.fileLines ++ rec.pendingLines,
    pendingLines := [],
    last_flush := now,
    unflushed_bytes := 0 }

/-- Model of `record_user_input` (pty.rs): scan the input, then flush iff
an event was written, or at least 16 KiB are unflushed, or at least 1.5 s
elapsed since the last flush.  (`flush` I/O errors are not modelled; the
fallible effect is `encFn`.) -/
def record_user_input (encFn : List Nat → List Nat → Except String (List Nat))
    (now : Nat) (rec : SessionRecording) (data : List Nat) :
    Except String SessionRecording :=
  let t := now - rec.started_at
  match recordScan encFn t rec false data with
  | .error e => .error e
  | .ok (rec1, wrote_any) =>
    let should_flush := wrote_any || rec1.unflushed_bytes ≥ 16 * 1024 ||
      now - rec1.last_flush ≥ 1500
    if should_flush then .ok (flushRecording rec1 now) else .ok rec1

/-! ### Lemmas about the recording scanner -/

/-- A printable character that none of the scanner's special cases match:
not CR, LF, backspace/delete, kill-line, tab, ESC, and not a control
character. -/
def isPlainPrintable (c : Nat) : Bool :=
  !(c == 13 || c == 10 || c == 127 || c == 8 || c == 21 || c == 9 || c == 27 ||
    isRustControl c)

/-- Scanning input made solely of plain printable characters never writes
an event: the characters are appended to the line buffer and nothing else
changes. -/
theorem recordScanF_printable
    (encFn : List Nat → List Nat → Except String (List Nat)) (t : Nat) :
    ∀ (data : List Nat) (fuel : Nat) (rec : SessionRecording) (wrote : Bool),
      data.length ≤ fuel → (∀ c ∈ data, isPlainPrintable c = true) →
      recordScanF encFn t fuel rec wrote data =
        .ok ({ rec with input_buffer := rec.input_buffer ++ data }, wrote) := by
  intro data
  induction data with
  | nil =>
    intro fuel rec wrote _ _
    cases fuel <;> simp [recordScanF]
  | cons c rest ih =>
    intro fuel rec wrote hf hp
    cases fuel with
    | zero => simp at hf
    | succ fuel =>
      have hf2 : rest.length ≤ fuel := Nat.succ_le_succ_iff.mp hf
      have hcb := hp c (by simp)
      simp only [isPlainPrintable, Bool.not_eq_eq_eq_not, Bool.not_true,
        Bool.or_eq_false_iff, beq_eq_false_iff_ne, ne_eq] at hcb
      obtain ⟨⟨⟨⟨⟨⟨⟨h13, h10⟩, h127⟩, h8⟩, h21⟩, h9⟩, h27⟩, hctl⟩ := hcb
      simp only [recordScanF, if_neg h13, if_neg h10,
        if_neg (show ¬(c = 127 ∨ c = 8) by tauto), if_neg h21, if_neg h9, if_neg h27,
        if_neg (show ¬ isRustControl c = true by simp [hctl])]
      rw [ih fuel { rec with input_buffer := rec.input_buffer ++ [c] } wrote hf2
        (fun x hx => hp x (by simp [hx]))]
      simp

/-- C5: From the armed state (empty input buffer, cleartext recording),
processing the user input `"ab\x7fc\r"` emits exactly one input event whose
payload is exactly `"ac\r"` (codepoints `[97, 99, 13]`); and in general a
backspace character (0x7F or 0x08) pops the last buffered character, which
on an empty buffer is a no-op. -/
theorem record_user_input_line_reconstruction :
    (∀ (encFn : List Nat → List Nat → Except String (List Nat)) (now : Nat)
        (rec : SessionRecording), rec.input_buffer = [] → rec.enc_key = none →
      record_user_input encFn now rec [97, 98, 127, 99, 13] =
        .ok (flushRecording
          { rec with
            pendingLines :=
              rec.pendingLines ++ [(now - rec.started_at, [97, 99, 13])],
            unflushed_bytes := rec.unflushed_bytes +
              (jsonInputLine (now - rec.started_at) [97, 99, 13]).length + 1,
            input_buffer := [] } now)) ∧
    (∀ (encFn : List Nat → List Nat → Except String (List Nat)) (t : Nat)
        (rec : SessionRecording) (wrote : Bool) (c : Nat), c = 127 ∨ c = 8 →
      recordScan encFn t rec wrote [c] =
        .ok ({ rec with input_buffer := rec.input_buffer.dropLast }, wrote)) ∧
    (∀ (encFn : List Nat → List Nat → Except String (List Nat)) (t : Nat)
        (rec : SessionRecording) (wrote : Bool) (c : Nat), c = 127 ∨ c = 8 →
      rec.input_buffer = [] →
      recordScan encFn t rec wrote [c] = .ok (rec, wrote)) := by
  refine ⟨?_, ?_, ?_⟩
  · intro encFn now rec h1 h2
    simp [record_user_input, recordScan, recordScanF, write_recording_event, h1, h2,
      isRustControl, List.head?]
  · intro encFn t rec wrote c hc
    rcases hc with rfl | rfl <;> simp [recordScan, recordScanF]
  · intro encFn t rec wrote c hc hb
    obtain ⟨a1, a2, a3, a4, a5, a6, a7, a8⟩ := rec
    simp only at hb
    subst hb
    rcases hc with rfl | rfl <;> simp [recordScan, recordScanF]

def armedRecording : SessionRecording :=
  { recId := [114], fileLines := [], pendingLines := [], started_at := 0,
    last_flush := 0, unflushed_bytes := 0, input_buffer := [], enc_key := none }

theorem record_user_input_line_reconstruction_witness :
    record_user_input (fun _ d => Except.ok d) 5 armedRecording [97, 98, 127, 99, 13] =
      .ok (flushRecording
        { armedRecording with
          pendingLines := [(5, [97, 99, 13])],
          unflushed_bytes := (jsonInputLine 5 [97, 99, 13]).length + 1,
          input_buffer := [] } 5) ∧
    recordScan (fun _ d => Except.ok d) 0 armedRecording false [127] =
      .ok (armedRecording, false) :=
  ⟨record_user_input_line_reconstruction.1 (fun _ d => Except.ok d) 5 armedRecording
      (by decide) (by decide),
   record_user_input_line_reconstruction.2.2 (fun _ d => Except.ok d) 0 armedRecording
      false 127 (Or.inl rfl) (by decide)⟩

/-- Printable input with no terminator is merely buffered: nothing is
written, and with a recent flush and few unflushed bytes nothing is flushed
either. -/
theorem record_user_input_printable_buffered
    (encFn : List Nat → List Nat → Except String (List Nat)) (now : Nat)
    (rec : SessionRecording) (data : List Nat)
    (hp : ∀ c ∈ data, isPlainPrintable c = true)
    (hu : rec.unflushed_bytes < 16 * 1024) (ht : now - rec.last_flush < 1500) :
    record_user_input encFn now rec data =
      .ok { rec with input_buffer := rec.input_buffer ++ data } := by
  simp only [record_user_input, recordScan]
  rw [recordScanF_printable encFn (now - rec.started_at) data data.length rec false
    (le_refl _) hp]
  show ite _ _ _ = _
  rw [if_neg (by
    simp only [Bool.or_eq_true, decide_eq_true_eq, not_or]
    exact ⟨⟨by simp, by simp; omega⟩, by simp; omega⟩)]

/-- C4 counterexample: feeding 20 KiB of printable input with no line
terminator through `record_user_input` on an armed recording writes nothing
to the recording file — the input only accumulates in the in-memory line
buffer, so the claim that it reaches the file via the 16 KiB size threshold
is false (that threshold counts already-serialized unflushed bytes, which
remain 0). -/
theorem record_user_input_unterminated_counterexample :
    record_user_input (fun _ d => Except.ok d) 0 armedRecording
        (List.replicate 20480 97) =
      .ok { armedRecording with input_buffer := List.replicate 20480 97 } ∧
    ({ armedRecording with input_buffer := List.replicate 20480 97 }
      : SessionRecording).fileLines = [] ∧
    ({ armedRecording with input_buffer := List.replicate 20480 97 }
      : SessionRecording).pendingLines = [] := by
  refine ⟨?_, rfl, rfl⟩
  have h := record_user_input_printable_buffered (fun _ d => Except.ok d) 0
    armedRecording (List.replicate 20480 97)
    (fun c hc => by rw [List.eq_of_mem_replicate hc]; decide)
    (by decide) (by decide)
  have h2 : armedRecording.input_buffer ++ List.replicate 20480 97 =
      List.replicate 20480 97 := by
    rw [show armedRecording.input_buffer = ([] : List Nat) from rfl, List.nil_append]
  rw [h, h2]

/-- C4 (amended): at the end of each `record_user_input` call the writer is
flushed iff an event line was written during the call, or the serialized
unflushed bytes reach 16 KiB, or at least 1.5 s elapsed since the last
flush; but input without a line terminator is only accumulated in the
in-memory line buffer and is not written to the file — in particular 20 KiB
of printable unterminated input leaves the recording file untouched. -/
theorem record_user_input_flush_policy :
    (∀ (encFn : List Nat → List Nat → Except String (List Nat)) (now : Nat)
        (rec : SessionRecording) (data : List Nat) rec1 wrote,
      recordScan encFn (now - rec.started_at) rec false data = .ok (rec1, wrote) →
      record_user_input encFn now rec data =
        .ok (if wrote = true ∨ 16 * 1024 ≤ rec1.unflushed_bytes ∨
              1500 ≤ now - rec1.last_flush
          then flushRecording rec1 now else rec1)) ∧
    (∀ (encFn : List Nat → List Nat → Except String (List Nat)) (now : Nat)
        (rec : SessionRecording) (data : List Nat),
      (∀ c ∈ data, isPlainPrintable c = true) →
      rec.unflushed_bytes < 16 * 1024 → now - rec.last_flush < 1500 →
      record_user_input encFn now rec data =
        .ok { rec with input_buffer := rec.input_buffer ++ data }) := by
  constructor
  · intro encFn now rec data rec1 wrote h
    simp only [record_user_input]
    rw [h]
    show ite _ _ _ = _
    by_cases hc : wrote = true ∨ 16 * 1024 ≤ rec1.unflushed_bytes ∨
        1500 ≤ now - rec1.last_flush
    · rw [if_pos hc]
      rw [if_pos (by
        rcases hc with hc | hc | hc
        · simp [hc]
        · simp only [Bool.or_eq_true, decide_eq_true_eq]
          tauto
        · simp only [Bool.or_eq_true, decide_eq_true_eq]
          tauto)]
    · rw [if_neg hc]
      rw [if_neg (by
        push_neg at hc
        simp only [Bool.or_eq_true, decide_eq_true_eq, not_or]
        exact ⟨⟨hc.1, by omega⟩, by omega⟩)]
  · intro encFn now rec data hp hu ht
    exact record_user_input_printable_buffered encFn now rec data hp hu ht

theorem record_user_input_flush_policy_witness :
    record_user_input (fun _ d => Except.ok d) 2000 armedRecording [104, 105] =
      .ok (flushRecording
        { armedRecording with input_buffer := [104, 105] } 2000) ∧
    record_user_input (fun _ d => Except.ok d) 10 armedRecording [104, 105] =
      .ok { armedRecording with input_buffer := [104, 105] } :=
  ⟨by
    have h := record_user_input_flush_policy.1 (fun _ d => Except.ok d) 2000
      armedRecording [104, 105]
      { armedRecording with input_buffer := [104, 105] } false (by rfl)
    rw [h]
    rw [if_pos (by decide)],
   record_user_input_flush_policy.2 (fun _ d => Except.ok d) 10 armedRecording
     [104, 105] (by decide) (by decide) (by decide)⟩

/-- Model of `PtySession` (pty.rs): the PTY writer is the byte sink
`writtenBytes`; `killRequested` models `child.kill()` having been called. -/
structure PtySession where
  name : List Nat
  writtenBytes : List Nat
  killRequested : Bool
  recording : Option SessionRecording
  closing : Bool
deriving Repr, DecidableEq

/-- Lookup in the session registry (`sessions.get`/`get_mut` on the
`HashMap`, modelled as an association list). -/
def regLookup : List (String × PtySession) → String → Option PtySession
  | [], _ => none
  | (k, s) :: rest, id => if k = id then some s else regLookup rest id

/-- In-place update of a registered session. -/
def regUpdate : List (String × PtySession) → String → PtySession →
    List (String × PtySession)
  | [], _, _ => []
  | (k, s) :: rest, id, s2 =>
    if k = id then (k, s2) :: rest else (k, s) :: regUpdate rest id s2

/-- Model of the `write_to_session` command (pty.rs): unknown id is an
error; a closing session is a silent no-op; otherwise the bytes go to the
PTY writer, and user-sourced input is forwarded to the recording — a
recording failure detaches the recording but the call still succeeds. -/
def write_to_session (encFn : List Nat → List Nat → Except String (List Nat))
    (now : Nat) (sessions : List (String × PtySession)) (id : String)
    (data : List Nat) (source : Option String) :
    Except String (List (String × PtySession)) :=
  match regLookup sessions id with
  | none => .error "unknown session"
  | some s =>
    if s.closing then .ok sessions
    else
      let s1 := { s with writtenBytes := s.writtenBytes ++ utf8EncodeStr data }
      let s2 :=
        if source = some "user" then
          match s1.recording with
          | some rec =>
            match record_user_input encFn now rec data with
            | .ok rec2 => { s1 with recording := some rec2 }
            | .error _ => { s1 with recording := none }
          | none => s1
        else s1
      .ok (regUpdate sessions id s2)

/-- Model of the `close_session` command (pty.rs): missing id and already
closing sessions are successful no-ops; otherwise set `closing` and
request child termination. -/
def close_session (sessions : List (String × PtySession)) (id : String) :
    Except String (List (String × PtySession)) :=
  match regLookup sessions id with
  | none => .ok sessions
  | some s =>
    if s.closing then .ok sessions
    else .ok (regUpdate sessions id { s with closing := true, killRequested := true })

/-! ### Registry operation theorems -/

theorem regLookup_regUpdate (sessions : List (String × PtySession)) (id : String)
    (s s2 : PtySession) (h : regLookup sessions id = some s) :
    regLookup (regUpdate sessions id s2) id = some s2 := by
  induction sessions with
  | nil => simp [regLookup] at h
  | cons p rest ih =>
    obtain ⟨k, v⟩ := p
    by_cases hk : k = id
    · simp [regLookup, regUpdate, hk]
    · simp only [regLookup, regUpdate, if_neg hk] at h ⊢
      exact ih h

/-- C7: `write_to_session` on a closing session returns success without
forwarding any bytes and without touching the recording; on a non-closing
session with an attached recording, if recording the user-sourced input
fails, the recording is detached but the call still returns success, the
bytes having been written to the PTY writer. -/
theorem write_to_session_closing_and_recording_failure :
    (∀ (encFn : List Nat → List Nat → Except String (List Nat)) (now : Nat)
        (sessions : List (String × PtySession)) (id : String) (data : List Nat)
        (source : Option String) (s : PtySession),
      regLookup sessions id = some s → s.closing = true →
      write_to_session encFn now sessions id data source = .ok sessions) ∧
    (∀ (encFn : List Nat → List Nat → Except String (List Nat)) (now : Nat)
        (sessions : List (String × PtySession)) (id : String) (data : List Nat)
        (s : PtySession) (rec : SessionRecording) (e : String),
      regLookup sessions id = some s → s.closing = false →
      s.recording = some rec →
      record_user_input encFn now rec data = .error e →
      write_to_session encFn now sessions id data (some "user") =
        .ok (regUpdate sessions id
          { s with writtenBytes := s.writtenBytes ++ utf8EncodeStr data,
                   recording := none })) := by
  constructor
  · intro encFn now sessions id data source s hl hc
    simp only [write_to_session, hl, hc, if_true]
  · intro encFn now sessions id data s rec e hl hc hr hf
    simp only [write_to_session, hl, hc, Bool.false_eq_true, if_false, hr, hf,
      if_pos rfl, if_true]

def w7rec : SessionRecording :=
  { recId := [114], fileLines := [], pendingLines := [], started_at := 0,
    last_flush := 0, unflushed_bytes := 0, input_buffer := [],
    enc_key := some [1] }

def w7closing : PtySession :=
  { name := [97], writtenBytes := [], killRequested := false, recording := none,
    closing := true }

def w7open : PtySession :=
  { name := [98], writtenBytes := [], killRequested := false,
    recording := some w7rec, closing := false }

def w7sessions : List (String × PtySession) := [("1", w7closing), ("2", w7open)]

theorem write_to_session_closing_and_recording_failure_witness :
    write_to_session (fun _ _ => Except.error "boom") 0 w7sessions "1" [104]
        (some "user") = .ok w7sessions ∧
    write_to_session (fun _ _ => Except.error "boom") 0 w7sessions "2" [13]
        (some "user") =
      .ok (regUpdate w7sessions "2"
        { w7open with writtenBytes := utf8EncodeStr [13], recording := none }) :=
  ⟨write_to_session_closing_and_recording_failure.1 (fun _ _ => Except.error "boom")
      0 w7sessions "1" [104] (some "user") w7closing (by decide) (by decide),
   write_to_session_closing_and_recording_failure.2 (fun _ _ => Except.error "boom")
      0 w7sessions "2" [13] w7open w7rec "boom" (by decide) (by decide) (by decide)
      (by rfl)⟩

/-- C8: `close_session` is idempotent: the first call on a registered,
non-closing session sets the closing flag and requests child termination
and returns success; a second call on the same id, or a call with an id
absent from the registry, changes no state and returns success. -/
theorem close_session_idempotent :
    (∀ (sessions : List (String × PtySession)) (id : String) (s : PtySession),
      regLookup sessions id = some s → s.closing = false →
      close_session sessions id =
        .ok (regUpdate sessions id { s with closing := true, killRequested := true })) ∧
    (∀ (sessions : List (String × PtySession)) (id : String),
      regLookup sessions id = none → close_session sessions id = .ok sessions) ∧
    (∀ (sessions sessions2 : List (String × PtySession)) (id : String),
      close_session sessions id = .ok sessions2 →
      close_session sessions2 id = .ok sessions2) := by
  refine ⟨?_, ?_, ?_⟩
  · intro sessions id s hl hc
    simp only [close_session, hl, hc, Bool.false_eq_true, if_false]
  · intro sessions id hl
    simp only [close_session, hl]
  · intro sessions sessions2 id h
    simp only [close_session] at h
    cases hl : regLookup sessions id with
    | none =>
      simp only [hl] at h
      injection h with h2
      subst h2
      simp [close_session, hl]
    | some s =>
      simp only [hl] at h
      by_cases hc : s.closing = true
      · rw [if_pos hc] at h
        injection h with h2
        subst h2
        simp [close_session, hl, hc]
      · rw [if_neg hc] at h
        injection h with h2
        subst h2
        simp [close_session, regLookup_regUpdate sessions id s _ hl]

theorem close_session_idempotent_witness :
    close_session w7sessions "2" =
      .ok (regUpdate w7sessions "2"
        { w7open with closing := true, killRequested := true }) ∧
    close_session w7sessions "zzz" = .ok w7sessions ∧
    close_session (regUpdate w7sessions "2"
        { w7open with closing := true, killRequested := true }) "2" =
      .ok (regUpdate w7sessions "2"
        { w7open with closing := true, killRequested := true }) :=
  ⟨close_session_idempotent.1 w7sessions "2" w7open (by decide) (by decide),
   close_session_idempotent.2.1 w7sessions "zzz" (by decide),
   close_session_idempotent.2.2 w7sessions _ "2"
     (close_session_idempotent.1 w7sessions "2" w7open (by decide) (by decide))⟩

/-! ## Name deduplication (`unique_name`, pty.rs) -/

/-- The candidate `format!("{base}-{n}")` tried by `unique_name`. -/
def candidateName (base : List Nat) (n : Nat) : List Nat :=
  base ++ [45] ++ natRepr n

theorem natReprF_congr : ∀ f₁ f₂ n, n < f₁ → n < f₂ → natReprF n f₁ = natReprF n f₂ := by
  intro f₁
  induction f₁ with
  | zero => intro f₂ n h _; omega
  | succ f ih =>
    intro f₂ n h1 h2
    cases f₂ with
    | zero => omega
    | succ f₂ =>
      simp only [natReprF]
      by_cases h10 : n < 10
      · rw [if_pos h10, if_pos h10]
      · rw [if_neg h10, if_neg h10]
        have hd : n / 10 < n := Nat.div_lt_self (by omega) (by norm_num)
        rw [ih f₂ (n / 10) (by omega) (by omega)]

theorem natRepr_pow_length : ∀ k, (natRepr (10 ^ k)).length = k + 1 := by
  intro k
  induction k with
  | zero => rfl
  | succ k ih =>
    have hge : 10 ≤ 10 ^ (k + 1) := by
      calc 10 = 10 ^ 1 := by norm_num
      _ ≤ 10 ^ (k + 1) := Nat.pow_le_pow_right (by norm_num) (by omega)
    have hdiv : 10 ^ (k + 1) / 10 = 10 ^ k := by
      rw [pow_succ]
      exact Nat.mul_div_cancel _ (by norm_num)
    have hx : natReprF (10 ^ k) (10 ^ k + 1) = natRepr (10 ^ k) := rfl
    show (natReprF (10 ^ (k + 1)) (10 ^ (k + 1) + 1)).length = k + 2
    rw [natReprF, if_neg (by omega), hdiv,
      natReprF_congr (10 ^ (k + 1)) (10 ^ k + 1) (10 ^ k) (by omega) (by omega), hx]
    simp only [List.length_append, List.length_cons, List.length_nil, ih]

/-- An upper bound on the lengths of a list of names. -/
def maxLenOf (taken : List (List Nat)) : Nat :=
  taken.foldr (fun x m => max x.length m) 0

theorem length_le_maxLenOf {taken : List (List Nat)} {x : List Nat}
    (h : x ∈ taken) : x.length ≤ maxLenOf taken := by
  induction taken with
  | nil => simp at h
  | cons y rest ih =>
    rcases List.mem_cons.mp h with rfl | h2
    · exact le_max_left _ _
    · exact le_trans (ih h2) (le_max_right _ _)

/-- The dedup loop of `unique_name` terminates: some candidate is not
taken (one longer than every taken name, for instance). -/
theorem unique_name_candidate_exists (taken : List (List Nat)) (base : List Nat) :
    ∃ k, candidateName base (2 + k) ∉ taken := by
  refine ⟨10 ^ (maxLenOf taken + 1) - 2, fun hmem => ?_⟩
  have hge : 10 ≤ 10 ^ (maxLenOf taken + 1) := by
    calc 10 = 10 ^ 1 := by norm_num
    _ ≤ 10 ^ (maxLenOf taken + 1) := Nat.pow_le_pow_right (by norm_num) (by omega)
  have h2 : 2 + (10 ^ (maxLenOf taken + 1) - 2) = 10 ^ (maxLenOf taken + 1) := by omega
  rw [h2] at hmem
  have hlen := length_le_maxLenOf hmem
  have hr := natRepr_pow_length (maxLenOf taken + 1)
  simp only [candidateName, List.length_append, List.length_cons,
    List.length_nil, hr] at hlen
  omega

/-- Model of `unique_name` (pty.rs).  `taken` is the set of names of the
currently registered sessions (the `HashSet` collected from the map's
values); the `loop` starting at `n = 2` returns the first free candidate,
i.e. the minimal one, here via `Nat.find`. -/
def unique_name (taken : List (List Nat)) (base : List Nat) : List Nat :=
  if base ∈ taken then
    candidateName base (2 + Nat.find (unique_name_candidate_exists taken base))
  else base

/-- The name returned by `unique_name` is never one of the taken names. -/
theorem unique_name_not_mem (taken : List (List Nat)) (base : List Nat) :
    unique_name taken base ∉ taken := by
  unfold unique_name
  by_cases h : base ∈ taken
  · rw [if_pos h]
    exact Nat.find_spec (unique_name_candidate_exists taken base)
  · rw [if_neg h]
    exact h

/-- C6: For every set of taken session names and every requested base name,
`unique_name` returns the base itself when it is free and otherwise the
first free candidate among `base-2`, `base-3`, …; consequently, starting
from a registry whose names are pairwise distinct, any sequence of session
creations keeps all names in the registry unique. -/
theorem unique_name_spec (taken : List (List Nat)) (base : List Nat) :
    (base ∉ taken → unique_name taken base = base) ∧
    unique_name taken base ∉ taken ∧
    (base ∈ taken →
      ∃ n, 2 ≤ n ∧ unique_name taken base = candidateName base n ∧
        candidateName base n ∉ taken ∧
        ∀ m, 2 ≤ m → m < n → candidateName base m ∈ taken) ∧
    (∀ init : List (List Nat), init.Nodup → ∀ bases : List (List Nat),
      (bases.foldl (fun acc b => acc ++ [unique_name acc b]) init).Nodup) := by
  refine ⟨?_, unique_name_not_mem taken base, ?_, ?_⟩
  · intro h
    unfold unique_name
    rw [if_neg h]
  · intro h
    refine ⟨2 + Nat.find (unique_name_candidate_exists taken base), by omega, ?_, ?_, ?_⟩
    · unfold unique_name
      rw [if_pos h]
    · exact Nat.find_spec (unique_name_candidate_exists taken base)
    · intro m hm2 hmlt
      have := Nat.find_min (unique_name_candidate_exists taken base)
        (m := m - 2) (by omega)
      simp only [not_not] at this
      have hm : 2 + (m - 2) = m := by omega
      rwa [hm] at this
  · intro init hinit bases
    induction bases generalizing init with
    | nil => simpa using hinit
    | cons b rest ih =>
      simp only [List.foldl_cons]
      apply ih
      rw [List.nodup_append]
      refine ⟨hinit, List.nodup_singleton _, ?_⟩
      intro a ha hmem
      rw [List.mem_singleton.mp hmem] at ha
      exact unique_name_not_mem init b ha

theorem unique_name_spec_witness :
    unique_name [] [97] = [97] ∧
    (∃ n, 2 ≤ n ∧ unique_name [[97]] [97] = candidateName [97] n ∧
      candidateName [97] n ∉ [[97]] ∧
      ∀ m, 2 ≤ m → m < n → candidateName [97] m ∈ [[97]]) ∧
    (([[98]] : List (List Nat)).foldl
        (fun acc b => acc ++ [unique_name acc b]) [[97]]).Nodup :=
  ⟨(unique_name_spec [] [97]).1 (by decide),
   (unique_name_spec [[97]] [97]).2.2.1 (by decide),
   (unique_name_spec [] []).2.2.2 [[97]] (by decide) [[98]]⟩

/-! ## Master key cache (`secure.rs`)

The process-wide `static CACHE: OnceLock<Mutex<MasterKeyCacheState>>` is
modelled by explicit state passing; the keychain call
`get_or_create_master_key_uncached` is the external parameter `fetch`. -/

/-- The three cache states (`MasterKeyCacheState` in secure.rs). -/
inductive MasterKeyCacheState where
  | uninitialized
  | ready (key : List Nat)
  | error (msg : String)
deriving Repr, DecidableEq

/-- Model of `get_or_create_master_key` (secure.rs): return the memoized
key or error without consulting the credential store; on the first call,
resolve via `fetch` and memoize the outcome, success or failure. -/
def get_or_create_master_key (fetch : Except String (List Nat))
    (st : MasterKeyCacheState) : MasterKeyCacheState × Except String (List Nat) :=
  match st with
  | .ready key => (st, .ok key)
  | .error err => (st, .error err)
  | .uninitialized =>
    match fetch with
    | .ok key => (.ready key, .ok key)
    | .error err => (.error err, .error err)

/-- Model of `reset_master_key_cache` (secure.rs). -/
def reset_master_key_cache (_st : MasterKeyCacheState) : MasterKeyCacheState :=
  .uninitialized

/-- C9: The master key cache is a tri-state machine: in the ready state the
cached key is returned and in the error state the cached error, in both
cases without consulting the credential store (`fetch` is arbitrary and the
state is unchanged); a resolving call moves uninitialized to exactly ready
on fetch success and to error on fetch failure; no `get` call ever yields
the uninitialized state, and `reset_master_key_cache` always returns the
cache to uninitialized. -/
theorem master_key_cache_tristate :
    (∀ (fetch : Except String (List Nat)) (key : List Nat),
      get_or_create_master_key fetch (.ready key) = (.ready key, .ok key)) ∧
    (∀ (fetch : Except String (List Nat)) (msg : String),
      get_or_create_master_key fetch (.error msg) = (.error msg, .error msg)) ∧
    (∀ key : List Nat,
      get_or_create_master_key (.ok key) .uninitialized = (.ready key, .ok key)) ∧
    (∀ msg : String,
      get_or_create_master_key (.error msg) .uninitialized =
        (.error msg, .error msg)) ∧
    (∀ (fetch : Except String (List Nat)) (st : MasterKeyCacheState),
      (get_or_create_master_key fetch st).1 ≠ .uninitialized) ∧
    (∀ st : MasterKeyCacheState, reset_master_key_cache st = .uninitialized) := by
  refine ⟨fun _ _ => rfl, fun _ _ => rfl, fun _ => rfl, fun _ => rfl, ?_, fun _ => rfl⟩
  intro fetch st
  cases st with
  | uninitialized => cases fetch <;> simp [get_or_create_master_key]
  | ready key => simp [get_or_create_master_key]
  | error msg => simp [get_or_create_master_key]

/-! ## Recording log reader (`load_recording`, recording.rs)

The file is modelled as the list of per-line `serde_json` parse outcomes
(`serde_json::from_str::<RecordingLineV1>` is external): a line is blank,
parses to `Meta` or `Input`, or fails to parse with some message. -/

/-- Model of `RecordingMetaV1` (recording.rs). -/
structure RecordingMetaV1 where
  schemaVersion : Nat
  createdAt : Nat
  name : Option (List Nat)
  projectId : List Nat
  sessionPersistId : List Nat
  cwd : Option (List Nat)
  effectId : Option (List Nat)
  bootstrapCommand : Option (List Nat)
  encrypted : Option Bool
deriving Repr, DecidableEq

/-- Parse outcome of one line of a recording file. -/
inductive RecordingLineParse where
  | blank
  | meta (m : RecordingMetaV1)
  | input (t : Nat) (data : List Nat)
  | bad (e : String)
deriving Repr, DecidableEq

/-- Accumulated state of the `load_recording` loop. -/
structure LoadState where
  meta : Option RecordingMetaV1
  events : List (Nat × List Nat)
  key : Option (List Nat)
deriving Repr, DecidableEq

/-- One iteration of the `for line in reader.lines()` loop of
`load_recording` (recording.rs).  `fetchKey` models
`crate::secure::get_or_create_master_key(&window)`; `aeadD` the AEAD
primitive inside `decrypt_string_with_key`. -/
def loadStep (aeadD : List Nat → List Nat → List Nat → List Nat → Except String (List Nat))
    (fetchKey : Except String (List Nat)) (decryptAllowed : Bool)
    (st : LoadState) : RecordingLineParse → Except String LoadState
  | .blank => .ok st
  | .bad e => .error ("parse failed: " ++ e)
  | .meta m => .ok { st with meta := if st.meta.isNone then some m else st.meta }
  | .input t data =>
    if is_probably_encrypted_value data then
      if decryptAllowed then
        match (match st.key with
               | some k => Except.ok k
               | none => fetchKey : Except String (List Nat)) with
        | .error e => .error e
        | .ok k =>
          match decrypt_string_with_key aeadD k SecretContext.recording data with
          | .error e => .error e
          | .ok d => .ok { st with events := st.events ++ [(t, d)], key := some k }
      else
        .error "Recording is encrypted. Enable macOS Keychain encryption to replay it."
    else .ok { st with events := st.events ++ [(t, data)] }

/-- Model of `load_recording` (recording.rs): fold the parse outcomes of
the lines; any failing step (a line that fails to parse, a decryption or
key error) aborts the whole read via `?`. -/
def load_recording
    (aeadD : List Nat → List Nat → List Nat → List Nat → Except String (List Nat))
    (fetchKey : Except String (List Nat)) (decryptAllowed : Bool)
    (lines : List RecordingLineParse) :
    Except String (Option RecordingMetaV1 × List (Nat × List Nat)) :=
  match lines.foldlM (loadStep aeadD fetchKey decryptAllowed) ⟨none, [], none⟩ with
  | .error e => .error e
  | .ok st => .ok (st.meta, st.events)

def c3meta : RecordingMetaV1 :=
  { schemaVersion := 1, createdAt := 0, name := none, projectId := [112],
    sessionPersistId := [115], cwd := none, effectId := none,
    bootstrapCommand := none, encrypted := some false }

/-- C3 counterexample: a recording file whose third line fails to parse is
not treated as truncated — `load_recording` aborts the whole read with a
parse error instead of returning `Ok` with the metadata and event read from
the first two lines. -/
theorem load_recording_bad_line_counterexample :
    load_recording (fun _ _ _ _ => Except.error "unused") (Except.ok []) true
        [RecordingLineParse.meta c3meta, RecordingLineParse.input 3 [104],
         RecordingLineParse.bad "expected value"] =
      Except.error ("parse failed: " ++ "expected value") := by rfl

/-- C3 (amended): for every recording file containing a line that fails to
parse, if the lines before the first such line process without error,
`load_recording` returns an error for the whole read (`parse failed: …` for
that line), discarding the metadata and events accumulated before it. -/
theorem load_recording_aborts_on_parse_error
    (aeadD : List Nat → List Nat → List Nat → List Nat → Except String (List Nat))
    (fetchKey : Except String (List Nat)) (decryptAllowed : Bool)
    (pre : List RecordingLineParse) (e : String) (rest : List RecordingLineParse)
    (st : LoadState)
    (h : pre.foldlM (loadStep aeadD fetchKey decryptAllowed) ⟨none, [], none⟩ =
      Except.ok st) :
    load_recording aeadD fetchKey decryptAllowed
        (pre ++ RecordingLineParse.bad e :: rest) =
      Except.error ("parse failed: " ++ e) := by
  unfold load_recording
  rw [List.foldlM_append, h]
  simp [loadStep, Bind.bind, Except.bind]

theorem load_recording_aborts_on_parse_error_witness :
    load_recording (fun _ _ _ _ => Except.error "unused") (Except.ok []) true
        ([RecordingLineParse.meta c3meta, RecordingLineParse.input 3 [104]] ++
          RecordingLineParse.bad "eof" :: [RecordingLineParse.input 9 [105]]) =
      Except.error ("parse failed: " ++ "eof") :=
  load_recording_aborts_on_parse_error (fun _ _ _ _ => Except.error "unused")
    (Except.ok []) true [RecordingLineParse.meta c3meta, RecordingLineParse.input 3 [104]]
    "eof" [RecordingLineParse.input 9 [105]]
    { meta := some c3meta, events := [(3, [104])], key := none } (by rfl)

end AgentMaestro
